import Mathlib

/-!
Shallow embedding of the napari-locpix core (`src/napari_locpix/_datastruc.py`)
in Lean 4, used to check the natural-language specification of the repository
against the code.

Modelling conventions:
* Python floats are modelled as exact rationals (`ℚ`); the float literal
  `1.001` is modelled as the rational `1001/1000`.  Claims about the binning
  pipeline are therefore settled in exact arithmetic, which is how the spec
  phrases them (it explicitly sets aside floating-point boundary cases).
* A polars dataframe is modelled as a `List Row`; optional columns
  (`z`, `frame`, pixel columns, `gt_label`) are `Option`-valued fields.
  Dropping a column sets the field to `none` in every row.
* Python `dict`s are modelled as association lists; exceptions are modelled
  with `Except` / an explicit error component.
* The aliasing behaviour of CPython's mutable default arguments (relevant to
  one claim about shared state) is modelled separately with an explicit heap.
-/

namespace NapariLocpix

/-- Python exceptions raised by the code under `src/napari_locpix/_datastruc.py`:
every explicit `raise` in the file raises `ValueError` with a message; `TypeError`
models failures of builtin operations such as `len(None)`. -/
inductive PyError where
  | valueError : String → PyError
  | typeError : String → PyError
deriving Repr, DecidableEq

/-- Row of the canonical point table (`self.df`).  Columns `z`, `frame`, the
pixel columns and `gt_label` are optional, mirroring the columns the polars
dataframe may or may not have. -/
structure Row where
  channel : Int
  x : ℚ
  y : ℚ
  z : Option ℚ
  frame : Option Int
  x_pixel : Option Int
  y_pixel : Option Int
  z_pixel : Option Int
  gt_label : Option Int
deriving Repr, DecidableEq

/-- Default row used with `List.getD` when quantifying over row indices. -/
def row0 : Row := ⟨0, 0, 0, none, none, none, none, none, none⟩

/-- Dense histogram array stored per channel in `self.histo`:
`np.histogramdd` output for 2D or 3D data. -/
inductive HistArr where
  | h2 : List (List Nat) → HistArr
  | h3 : List (List (List Nat)) → HistArr
deriving Repr, DecidableEq

/-- Lookup in a Python dict keyed by channel (association list model). -/
def dict_get (d : List (Int × HistArr)) (k : Int) : Option HistArr :=
  (d.find? (fun p => p.1 == k)).map (fun p => p.2)

/-- Assignment `d[k] = v` in a Python dict: replaces the value at an existing
key in place and otherwise appends the new entry (Python dicts preserve
insertion order). -/
def dict_set : List (Int × HistArr) → Int → HistArr → List (Int × HistArr)
  | [], k, v => [(k, v)]
  | p :: d, k, v => if p.1 == k then (k, v) :: d else p :: dict_set d k v

/-- The `item` datastructure of `_datastruc.py` (pure model; the dense
histogram dict is stored by value here, the aliasing of the shared mutable
default argument is modelled separately below). -/
structure Item where
  name : String
  df : List Row
  dim : Int
  channels : Option (List Int)
  channel_label : Option (List String)
  histo : List (Int × HistArr)
  histo_edges : Option (List (List ℚ))
  histo_mask : Option (List (List Int))
  bin_sizes : Option (List ℚ)
  gt_label_map : Option (List (Int × String))
deriving Repr, DecidableEq

/-- Message of the `ValueError` raised by `item.__init__` when there are more
channels than channel labels. -/
def label_mismatch_msg (n_label n_chan : Nat) : String :=
  "Labels for each channel is length " ++ toString n_label ++ "\n"
    ++ "Channels is length " ++ toString n_chan ++ "\n"
    ++ "There are more channels than labels"

/-- Model of `item.__init__`.  The guard
`if (channels is not None) or (channel_label is not None)` is entered whenever
at least one of the two is non-`None`; inside it `len(channels)` and
`len(channel_label)` are taken, so if exactly one of the two is `None` the call
raises `TypeError` (`len(None)`); if both are lists and there are more channels
than labels it raises `ValueError`. -/
def item_init (name : String) (df : List Row) (dim : Int)
    (channels : Option (List Int)) (channel_label : Option (List String))
    (histo : List (Int × HistArr)) (histo_edges : Option (List (List ℚ)))
    (histo_mask : Option (List (List Int))) (bin_sizes : Option (List ℚ))
    (gt_label_map : Option (List (Int × String))) : Except PyError Item :=
  if channels.isSome ∨ channel_label.isSome then
    match channels, channel_label with
    | some cs, some ls =>
        if cs.length > ls.length then
          .error (.valueError (label_mismatch_msg ls.length cs.length))
        else
          .ok ⟨name, df, dim, some cs, some ls, histo, histo_edges, histo_mask,
               bin_sizes, gt_label_map⟩
    | _, _ => .error (.typeError "object of type NoneType has no len()")
  else
    .ok ⟨name, df, dim, channels, channel_label, histo, histo_edges, histo_mask,
         bin_sizes, gt_label_map⟩

/-- Whether the label-count guard of `item.__init__` passes for the current
field values of an item (it is re-run when a saved item is reloaded). -/
def init_ok (it : Item) : Bool :=
  match it.channels, it.channel_label with
  | some cs, some ls => decide (cs.length ≤ ls.length)
  | none, none => true
  | _, _ => false

/-- Minimum of a column (`df.min()`), as polars computes it over a non-empty
column; `0` is a junk value for the empty table (where polars would give null
and the subsequent arithmetic would fail). -/
def col_min : List ℚ → ℚ
  | [] => 0
  | a :: t => t.foldl min a

/-- Maximum of a column (`df.max()`); junk value `0` for the empty table. -/
def col_max : List ℚ → ℚ
  | [] => 0
  | a :: t => t.foldl max a

/-! ### Histogram Binner (`item.coord_2_histo`) and Pixel Indexer (`item._coord_2_pixel`) -/

/-- The deliberate bin-width inflation factor `1.001` of `coord_2_histo`
("need to increase bin size very marginally to include last localisation"),
as an exact rational. -/
def inflate : ℚ := 1001 / 1000

/-- Bin edges for one axis: `[mn + w * i for i in range(bins + 1)]`. -/
def axis_edges (mn w : ℚ) (bins : Nat) : List ℚ :=
  (List.range (bins + 1)).map (fun (i : Nat) => mn + w * (i : ℚ))

/-- The inflated bin width of one axis:
`(max - min) / bins` scaled by `1.001`. -/
def bin_w (col : List ℚ) (bins : Nat) : ℚ :=
  ((col_max col - col_min col) / (bins : ℚ)) * inflate

/-- Whether a coordinate falls in bin `i` of the given edge sequence, with the
`np.histogramdd` convention: bins are half-open `[e_i, e_(i+1))` except the
last bin, which is closed on the right. -/
def in_bin (edges : List ℚ) (i : Nat) (q : ℚ) : Bool :=
  decide (edges.getD i 0 ≤ q) &&
    (if i + 2 = edges.length then decide (q ≤ edges.getD (i + 1) 0)
     else decide (q < edges.getD (i + 1) 0))

/-- Model of `np.histogramdd(sample, bins=(x_edges, y_edges))`: the count grid
indexed `[x_bin][y_bin]`; samples outside the edge ranges are not counted. -/
def histogramdd2 (x_edges y_edges : List ℚ) (pts : List (ℚ × ℚ)) : List (List Nat) :=
  (List.range (x_edges.length - 1)).map (fun i =>
    (List.range (y_edges.length - 1)).map (fun j =>
      (pts.filter (fun p => in_bin x_edges i p.1 && in_bin y_edges j p.2)).length))

/-- Model of `np.histogramdd` for three axes. -/
def histogramdd3 (x_edges y_edges z_edges : List ℚ) (pts : List (ℚ × ℚ × ℚ)) :
    List (List (List Nat)) :=
  (List.range (x_edges.length - 1)).map (fun i =>
    (List.range (y_edges.length - 1)).map (fun j =>
      (List.range (z_edges.length - 1)).map (fun k =>
        (pts.filter (fun p =>
          in_bin x_edges i p.1 && in_bin y_edges j p.2.1 && in_bin z_edges k p.2.2)).length)))

/-- Sum of all entries of a 2D histogram. -/
def hist2_sum (h : List (List Nat)) : Nat := (h.map List.sum).sum

/-- Model of the strict polars cast `pl.col(...).cast(int, strict=True)` applied
to a float column: truncation toward zero (which equals `floor` on the
non-negative domain). -/
def py_int_cast (q : ℚ) : Int := if 0 ≤ q then ⌊q⌋ else ⌈q⌉

/-- Collects `f` over a list, succeeding only if every element succeeds. -/
def opt_list {α β : Type} (f : α → Option β) : List α → Option (List β)
  | [] => some []
  | x :: xs =>
    match f x, opt_list f xs with
    | some b, some bs => some (b :: bs)
    | _, _ => none

/-- The `z` column of the table, present only if every row carries a `z` value
(a missing column makes the Python code fail with a `KeyError`-like error). -/
def col_z (df : List Row) : Option (List ℚ) := opt_list Row.z df

/-- Model of `item._coord_2_pixel`: recomputes the per-axis minima from the
current table, drops any pre-existing pixel columns, divides each coordinate's
offset from the axis minimum by the stored bin width and casts the result to
int.  The commented-out clamping of the maximal localisation in the source is
not performed.  Failure cases (`bin_sizes` not a tuple of the right arity,
missing `z` column) are modelled as `TypeError`. -/
def coord_2_pixel (it : Item) : Except PyError Item :=
  let x_min := col_min (it.df.map Row.x)
  let y_min := col_min (it.df.map Row.y)
  if it.dim = 2 then
    match it.bin_sizes with
    | some [xw, yw] =>
      let df := it.df.map (fun r =>
        { r with x_pixel := some (py_int_cast ((r.x - x_min) / xw)),
                 y_pixel := some (py_int_cast ((r.y - y_min) / yw)),
                 z_pixel := none })
      .ok { it with df := df }
    | _ => .error (.typeError "cannot unpack bin_sizes into two pixel widths")
  else if it.dim = 3 then
    match it.bin_sizes, col_z it.df with
    | some [xw, yw, zw], some zs =>
      let z_min := col_min zs
      let df := it.df.map (fun r =>
        { r with x_pixel := some (py_int_cast ((r.x - x_min) / xw)),
                 y_pixel := some (py_int_cast ((r.y - y_min) / yw)),
                 z_pixel := (r.z.map (fun z => py_int_cast ((z - z_min) / zw))) })
      .ok { it with df := df }
    | _, _ => .error (.typeError "cannot unpack bin_sizes into three pixel widths")
  else .error (.typeError "pixel widths undefined for this dim")

/-- Model of `item.coord_2_histo`: computes per-axis minima and maxima over the
full table, inflates the raw bin width by `1.001`, derives the edge sequences,
computes one `np.histogramdd` per observed channel into the `histo` dict, and
finally invokes `_coord_2_pixel`.  The `cmap` / `vis_interpolation` arguments of
the source only affect visualisation and carry no data, so they are omitted. -/
def coord_2_histo (it : Item) (histo_size : List Nat) : Except PyError Item :=
  if it.dim = 2 then
    match histo_size with
    | [x_bins, y_bins] =>
      let xs := it.df.map Row.x
      let ys := it.df.map Row.y
      let x_bin_size := bin_w xs x_bins
      let y_bin_size := bin_w ys y_bins
      let x_edges := axis_edges (col_min xs) x_bin_size x_bins
      let y_edges := axis_edges (col_min ys) y_bin_size y_bins
      match it.channels with
      | none => .error (.typeError "NoneType object is not iterable")
      | some cs =>
        let histo := cs.foldl (fun h chan =>
          dict_set h chan (.h2 (histogramdd2 x_edges y_edges
            ((it.df.filter (fun r => r.channel == chan)).map (fun r => (r.x, r.y)))))) it.histo
        coord_2_pixel { it with
          bin_sizes := some [x_bin_size, y_bin_size],
          histo_edges := some [x_edges, y_edges],
          histo := histo }
    | _ => .error (.typeError "cannot unpack histo_size into two bin counts")
  else if it.dim = 3 then
    match histo_size, col_z it.df with
    | [x_bins, y_bins, z_bins], some zs =>
      let xs := it.df.map Row.x
      let ys := it.df.map Row.y
      let x_bin_size := bin_w xs x_bins
      let y_bin_size := bin_w ys y_bins
      let z_bin_size := bin_w zs z_bins
      let x_edges := axis_edges (col_min xs) x_bin_size x_bins
      let y_edges := axis_edges (col_min ys) y_bin_size y_bins
      let z_edges := axis_edges (col_min zs) z_bin_size z_bins
      match it.channels with
      | none => .error (.typeError "NoneType object is not iterable")
      | some cs =>
        let histo := cs.foldl (fun h chan =>
          dict_set h chan (.h3 (histogramdd3 x_edges y_edges z_edges
            ((it.df.filter (fun r => r.channel == chan)).map
              (fun r => (r.x, r.y, r.z.getD 0)))))) it.histo
        coord_2_pixel { it with
          bin_sizes := some [x_bin_size, y_bin_size, z_bin_size],
          histo_edges := some [x_edges, y_edges, z_edges],
          histo := histo }
    | _, _ => .error (.typeError "cannot unpack histo_size into three bin counts")
  else .error (.typeError "histogram undefined for this dim")

/-- Model of `np.digitize(q, bins)` for monotonically increasing `bins`:
the 1-indexed bin position, i.e. the number of edges that are `≤ q`. -/
def digitize (q : ℚ) (edges : List ℚ) : Nat :=
  (edges.filter (fun e => decide (e ≤ q))).length

/-! ### Mask Reconciler (`item._manual_seg_pixel_2_coord`) -/

/-- Entry `mask[i][j]` of a 2D mask array (indexing convention `[X, Y]`, as the
docstring of `histo_mask` states). -/
def mask_at (mask : List (List Int)) (i j : Nat) : Int :=
  (mask.getD i []).getD j 0

/-- The flattened mask dataframe built by `_manual_seg_pixel_2_coord`:
with `s0, s1 = mask.shape`, the arrays produced by
`np.meshgrid(range(s0), range(s1))` have shape `(s1, s0)`, so after `np.ravel`
row `k` of the dataframe is
`x_pixel = k / s0`, `y_pixel = k % s0`, while the raveled mask contributes
`gt_label = mask[k / s1][k % s1]`. -/
def mask_df (mask : List (List Int)) : List (Int × Int × Int) :=
  let s0 := mask.length
  let s1 := (mask.headD []).length
  (List.range (s0 * s1)).map (fun k =>
    (((k / s0 : Nat) : Int), ((k % s0 : Nat) : Int), mask_at mask (k / s1) (k % s1)))

/-- Lexicographic comparison used for `mask_df.sort(["x_pixel", "y_pixel"])`. -/
def pixel_le (a b : Int × Int × Int) : Bool :=
  a.1 < b.1 || (a.1 == b.1 && a.2.1 ≤ b.2.1)

/-- Insertion into a sorted list (used to model the library sorts; insertion
sort is chosen because it evaluates by structural recursion). -/
def insert_le {α : Type} (le : α → α → Bool) (a : α) : List α → List α
  | [] => [a]
  | b :: l => if le a b then a :: b :: l else b :: insert_le le a l

/-- Insertion sort with respect to a boolean comparison. -/
def sort_le {α : Type} (le : α → α → Bool) : List α → List α
  | [] => []
  | a :: l => insert_le le a (sort_le le l)

/-- Model of `self.df.join(mask_df, how="inner", on=["x_pixel", "y_pixel"])`:
since `mask_df` has pairwise-distinct keys, each left row matches at most one
mask row and the join keeps the left rows that have a match, attaching the
mask's `gt_label`.  Rows without the pixel columns are dropped (in Python a
join on a missing column would fail; every claim about this operation assumes
the Pixel Indexer has run).  Row order of the inner join is not semantically
meaningful and is modelled as left order. -/
def inner_join_mask (df : List Row) (mdf : List (Int × Int × Int)) : List Row :=
  df.filterMap (fun r =>
    match r.x_pixel, r.y_pixel with
    | some xp, some yp =>
      (mdf.find? (fun t => t.1 == xp && t.2.1 == yp)).map
        (fun t => { r with gt_label := some t.2.2 })
    | _, _ => none)

/-- Model of `item._manual_seg_pixel_2_coord` (2D): flattens `histo_mask` into
a `(x_pixel, y_pixel, gt_label)` dataframe, sorts it, drops a pre-existing
`gt_label` column, and inner-joins on the pixel columns.  An unset mask makes
numpy fail (the default `histo_mask = {}` has no `shape`), modelled as
`TypeError`.  For `dim == 3` the source only prints a message and changes
nothing. -/
def manual_seg_pixel_2_coord (it : Item) : Except PyError Item :=
  if it.dim = 2 then
    match it.histo_mask with
    | none => .error (.typeError "histo_mask has no attribute shape")
    | some mask =>
      let mdf := sort_le pixel_le (mask_df mask)
      let df := it.df.map (fun r => { r with gt_label := none })
      .ok { it with df := inner_join_mask df mdf }
  else .ok it

/-! ### CSV export (`item.save_df_to_csv`) -/

/-- Row of the written CSV file: the point-table columns plus the optional
`chan_label` column added by the label join. -/
structure CsvRow where
  row : Row
  chan_label : Option String
deriving Repr, DecidableEq

/-- Dropping the pixel columns before writing (`save_df.drop("x_pixel")`, ...):
`z_pixel` is dropped only for 3D data. -/
def drop_pixel_cols (dim : Int) (df : List Row) : List Row :=
  df.map (fun r => { r with x_pixel := none, y_pixel := none,
                            z_pixel := if dim = 3 then none else r.z_pixel })

/-- Filtering `pl.col("gt_label") != 0`: polars keeps rows where the comparison
is true; a null `gt_label` compares to null and the row is dropped. -/
def filter_nonzero_label (df : List Row) : List Row :=
  df.filter (fun r => match r.gt_label with
    | some v => decide (v ≠ 0)
    | none => false)

/-- The label dataframe
`pl.DataFrame({"chan_label": self.channel_label}).with_row_count("channel")`:
rows `(channel = i, chan_label = channel_label[i])`.  When `channel_label` is
`None`, polars builds a single all-null row with row count `0`. -/
def chan_label_df (channel_label : Option (List String)) : List (Int × Option String) :=
  match channel_label with
  | some ls => (List.range ls.length).map (fun (i : Nat) => ((i : Int), some (ls.getD i "")))
  | none => [(0, none)]

/-- The table as it stands right before the optional label join of
`save_df_to_csv`: pixel columns and zero-label rows dropped as requested. -/
def csv_base (it : Item) (drop_zero_label drop_pixel_col : Bool) : List Row :=
  let save_df := it.df
  let save_df := if drop_pixel_col then drop_pixel_cols it.dim save_df else save_df
  if drop_zero_label then filter_nonzero_label save_df else save_df

/-- Model of `item.save_df_to_csv`: the list of rows written to the CSV file
(the `write_csv` call itself is generic table I/O).  With `save_chan_label`,
the table is inner-joined with the label dataframe on `channel`. -/
def save_df_to_csv (it : Item)
    (drop_zero_label drop_pixel_col save_chan_label : Bool) : List CsvRow :=
  let save_df := csv_base it drop_zero_label drop_pixel_col
  if save_chan_label then
    save_df.filterMap (fun r =>
      ((chan_label_df it.channel_label).find? (fun t => t.1 == r.channel)).map
        (fun t => CsvRow.mk r t.2))
  else save_df.map (fun r => CsvRow.mk r none)

/-- Specification-side description of the label join (from the claim's words,
to be compared with the implementation): each written row gains a `chan_label`
column equal to `channel_label[channel]`, and rows whose channel value is not
in `0 .. len(channel_label) - 1` are silently omitted. -/
def chan_label_join_spec (ls : List String) (df : List Row) : List CsvRow :=
  df.filterMap (fun r =>
    if 0 ≤ r.channel ∧ r.channel < (ls.length : Int) then
      some (CsvRow.mk r (some (ls.getD r.channel.toNat "")))
    else none)

/-- Specification-side description of 2D mask reconciliation with a square
mask (from the claim's words, to be compared with the implementation): a
retained row's `gt_label` is the mask value at its `(x_pixel, y_pixel)`, and
rows whose pixel has no mask cell are dropped. -/
def mask_join_spec (mask : List (List Int)) (df : List Row) : List Row :=
  df.filterMap (fun r =>
    match r.x_pixel, r.y_pixel with
    | some p, some q =>
      if 0 ≤ p ∧ p < (mask.length : Int) ∧ 0 ≤ q ∧ q < (mask.length : Int) then
        some { r with gt_label := some (mask_at mask p.toNat q.toNat) }
      else none
    | _, _ => none)

/-! ### Point-Cloud Serializer (`item.save_to_parquet` / `item.load_from_parquet`)

The parquet schema metadata is a map from the keys `name, dim, channels,
channel_label, gt_label_map, bin_sizes` to *text*: `str(...)` for `dim`,
`channels`, `channel_label` and `bin_sizes`, and `json.dumps(...)` for
`gt_label_map`.  Decimal integer text (what `str(int)` writes and `int(str)`
parses) is modelled as a sign plus the base-10 digit list `Nat.digits 10 n`;
the texts written by `str` on lists/tuples and parsed back by
`ast.literal_eval` are modelled by the Python literal values themselves
(`PyLit`), since `ast.literal_eval(str(x)) = x` for these shapes. -/

/-- Decimal integer text: sign and little-endian base-10 digits. -/
structure DecStr where
  neg : Bool
  digits : List Nat
deriving Repr, DecidableEq

/-- Model of Python `str` applied to an `int`. -/
def str_of_int (n : Int) : DecStr :=
  ⟨decide (n < 0), Nat.digits 10 n.natAbs⟩

/-- Model of Python `int` applied to decimal integer text. -/
def int_of_str (s : DecStr) : Int :=
  if s.neg then -((Nat.ofDigits 10 s.digits : Nat) : Int)
  else ((Nat.ofDigits 10 s.digits : Nat) : Int)

/-- Python literal values, the domain on which `ast.literal_eval` inverts
`str`.  Floats are represented as exact rationals. -/
inductive PyLit where
  | pynone : PyLit
  | int : Int → PyLit
  | str : String → PyLit
  | float : ℚ → PyLit
  | list : List PyLit → PyLit
  | tuple : List PyLit → PyLit

/-- JSON document written by `json.dumps(gt_label_map)`: either `null` or an
object whose keys are the decimal texts of the integer labels (JSON object
keys are strings, so `json.dumps` stringifies the integer keys). -/
inductive Json where
  | null : Json
  | obj : List (DecStr × String) → Json
deriving DecidableEq

/-- Model of `json.dumps` on the (optional) label map. -/
def json_dumps_map (m : Option (List (Int × String))) : Json :=
  match m with
  | none => .null
  | some l => .obj (l.map (fun p => (str_of_int p.1, p.2)))

/-- The decode step of `load_from_parquet` for the label map: `json.loads`
followed by `{int(key): value ...}` when the result is not `None`. -/
def json_loads_map (j : Json) : Option (List (Int × String)) :=
  match j with
  | .null => none
  | .obj l => some (l.map (fun p => (int_of_str p.1, p.2)))

/-- Encoding `str(self.channels)` (a list of ints, or `None`). -/
def enc_int_list : Option (List Int) → PyLit
  | none => .pynone
  | some l => .list (l.map PyLit.int)

/-- Encoding `str(self.channel_label)` (a list of strings, or `None`). -/
def enc_str_list : Option (List String) → PyLit
  | none => .pynone
  | some l => .list (l.map PyLit.str)

/-- Encoding `str(self.bin_sizes)` (a tuple of floats, or `None`). -/
def enc_float_tuple : Option (List ℚ) → PyLit
  | none => .pynone
  | some l => .tuple (l.map PyLit.float)

/-- Reading an int literal back. -/
def dec_int : PyLit → Option Int
  | .int n => some n
  | _ => none

/-- Reading a string literal back. -/
def dec_str : PyLit → Option String
  | .str s => some s
  | _ => none

/-- Reading a float literal back. -/
def dec_float : PyLit → Option ℚ
  | .float q => some q
  | _ => none

/-- Reading `channels` back from the evaluated literal.  `load_from_parquet`
assigns whatever literal `ast.literal_eval` produced; the shape check encodes
the (dynamically checked) fact that the files written by `save_to_parquet`
always hold a literal of the expected shape. -/
def dec_int_list : PyLit → Option (Option (List Int))
  | .pynone => some none
  | .list xs => (opt_list dec_int xs).map some
  | _ => none

/-- Reading `channel_label` back from the evaluated literal. -/
def dec_str_list : PyLit → Option (Option (List String))
  | .pynone => some none
  | .list xs => (opt_list dec_str xs).map some
  | _ => none

/-- Reading `bin_sizes` back from the evaluated literal. -/
def dec_float_tuple : PyLit → Option (Option (List ℚ))
  | .pynone => some none
  | .tuple xs => (opt_list dec_float xs).map some
  | _ => none

/-- The schema metadata block written into the parquet file. -/
structure SchemaMeta where
  name : String
  dim : DecStr
  channels : PyLit
  channel_label : PyLit
  gt_label_map : Json
  bin_sizes : PyLit

/-- A parquet file: the columnar table plus the schema metadata.  Parquet
round-trips the table exactly (the pyarrow read/write pair is generic I/O). -/
structure PFile where
  table : List Row
  meta : SchemaMeta

/-- The filesystem seen by save/load: a map from paths to parquet files. -/
abbrev FileSys : Type := List (String × PFile)

/-- Reading a file: `os.path.exists` / `pq.read_table`. -/
def fs_read (fs : FileSys) (path : String) : Option PFile :=
  (fs.find? (fun p => p.1 == path)).map (fun p => p.2)

/-- Writing a file, `pq.write_table`: replaces the file at `path`, or creates it. -/
def fs_write : FileSys → String → PFile → FileSys
  | [], path, f => [(path, f)]
  | p :: fs, path, f => if p.1 == path then (path, f) :: fs else p :: fs_write fs path f

/-- Model of `item.save_to_parquet`.  Note that the written `gt_label_map` is
the *argument* of the method, not the field of the item (callers pass the map
they want persisted).  A polars dataframe carries no schema metadata of its
own, so the `{**meta_data, **(old_metadata or {})}` merge reduces to the new
metadata.  Returns the error raised (if any) together with the resulting
filesystem; when the destination exists and `overwrite` is false the
`ValueError` (the spec's `FileExists`) is raised before anything is written. -/
def save_to_parquet (it : Item) (fs : FileSys) (save_loc : String)
    (drop_zero_label drop_pixel_col : Bool)
    (gt_label_map : Option (List (Int × String))) (overwrite : Bool) :
    Option PyError × FileSys :=
  let save_df := it.df
  let save_df := if drop_pixel_col then drop_pixel_cols it.dim save_df else save_df
  let save_df := if drop_zero_label then filter_nonzero_label save_df else save_df
  let meta : SchemaMeta :=
    ⟨it.name, str_of_int it.dim, enc_int_list it.channels,
     enc_str_list it.channel_label, json_dumps_map gt_label_map,
     enc_float_tuple it.bin_sizes⟩
  if (fs_read fs save_loc).isSome ∧ ¬ overwrite then
    (some (.valueError
      "Cannot overwite. If you want to overwrite please set overwrite==True"), fs)
  else
    (none, fs_write fs save_loc ⟨save_df, meta⟩)

/-- Model of `item.load_from_parquet`: reads the file, decodes every metadata
field back to its native type (`int(...)` for `dim`, `ast.literal_eval` for
the stringified lists/tuple, `json.loads` plus integer-key conversion for the
label map) and calls `__init__` with the decoded values; `histo`,
`histo_edges` and `histo_mask` are left at their defaults. -/
def load_from_parquet (fs : FileSys) (input_file : String) : Except PyError Item :=
  match fs_read fs input_file with
  | none => .error (.valueError "No such file or directory")
  | some f =>
    match dec_int_list f.meta.channels, dec_str_list f.meta.channel_label,
          dec_float_tuple f.meta.bin_sizes with
    | some channels, some channel_label, some bin_sizes =>
      item_init f.meta.name f.table (int_of_str f.meta.dim) channels channel_label
        [] none none bin_sizes (json_loads_map f.meta.gt_label_map)
    | _, _, _ => .error (.typeError "metadata literal has unexpected shape")

/-! ### Coordinate Table Loader (`file_to_datastruc`) -/

/-- A row of the raw tabular file, with the column roles already resolved by
the caller's column-name mapping (`channel_col`, `x_col`, `y_col`, `z_col`,
`frame_col`); the projection and renaming performed by
`pl.read_csv(columns=...)` / `df.rename` is byte-level table plumbing. -/
structure RawRow where
  channel : Int
  x : ℚ
  y : ℚ
  z : ℚ
  frame : Int
deriving Repr, DecidableEq

/-- The raw file: the basename of its path after `os.path.normpath` /
`os.path.basename` (name derivation strips the extension from it), and its
parsed rows. -/
structure RawFile where
  basename : String
  rows : List RawRow
deriving Repr, DecidableEq

/-- Projection of a raw row onto the canonical columns: `z` is read only for
`dim == 3`, `frame` only when a frame column was requested. -/
def project_row (dim : Int) (has_frame : Bool) (rr : RawRow) : Row :=
  ⟨rr.channel, rr.x, rr.y, if dim = 3 then some rr.z else none,
   if has_frame then some rr.frame else none, none, none, none, none⟩

/-- The distinct values of a column (each value kept once). -/
def uniq_ints : List Int → List Int
  | [] => []
  | a :: l => if a ∈ l then uniq_ints l else a :: uniq_ints l

/-- Model of `sorted(df["channel"].unique())`: the distinct channel values in
ascending order. -/
def sorted_unique (l : List Int) : List Int :=
  sort_le (fun a b => decide (a ≤ b)) (uniq_ints l)

/-- Model of `file_to_datastruc`.  The validation order follows the source:
dimension checks, then the `z`-column consistency checks, then the file-type
check; after reading, the item constructor runs its own label-count guard.
`z_col` and `frame_col` are `none` when the caller passes `None` (the guards
test Python truthiness, so an empty column name behaves like `None`; only
presence is modelled). -/
def file_to_datastruc (input_file : RawFile) (file_type : String) (dim : Int)
    (z_col : Option String) (frame_col : Option String)
    (channel_label : Option (List String)) : Except PyError Item :=
  if dim ≠ 2 ∧ dim ≠ 3 then
    .error (.valueError "Dimensions must be 2 or 3")
  else if dim = 2 ∧ z_col.isSome then
    .error (.valueError "If dimensions are two no z should be specified")
  else if dim = 3 ∧ z_col.isNone then
    .error (.valueError "If dimensions are 3 then z_col must be specified")
  else if file_type ≠ "csv" ∧ file_type ≠ "parquet" then
    .error (.valueError (file_type ++ " is not supported, should be csv or parquet"))
  else
    let df := input_file.rows.map (project_row dim frame_col.isSome)
    let channels := sorted_unique (df.map Row.channel)
    let name := if file_type = "csv" then input_file.basename.dropRight 4
                else input_file.basename.dropRight 8
    item_init name df dim (some channels) channel_label [] none none none none

/-! ### Reference semantics of the shared mutable default argument

`item.__init__` is declared as `def __init__(self, ..., histo={}, ...)`.  In
CPython the default dict is allocated once, when the function is defined, and
every construction that omits `histo` stores a reference to that same dict in
the new instance; `coord_2_histo` then mutates it in place through
`self.histo[chan] = ...`.  To settle the claim about shared state this aliasing
is modelled explicitly: a heap maps dict addresses to dict contents, address
`0` is the default dict of `item.__init__`, and items store the address of
their `histo` dict. -/

/-- Heap of Python dict objects: the dict at address `a` is `cells.getD a []`. -/
structure PyHeap where
  cells : List (List (Int × HistArr))
deriving Repr, DecidableEq

/-- The heap at interpreter start-up: `item.__init__` has been defined, so its
default `histo` dict exists (empty) at address `0`. -/
def py_start_heap : PyHeap := ⟨[[]]⟩

/-- Contents of the dict at address `a`. -/
def heap_get (h : PyHeap) (a : Nat) : List (Int × HistArr) :=
  h.cells.getD a []

/-- Overwrites the dict at address `a` (in-place mutation of the object). -/
def heap_set (h : PyHeap) (a : Nat) (d : List (Int × HistArr)) : PyHeap :=
  ⟨h.cells.set a d⟩

/-- An `item` instance under reference semantics: as `Item`, but `histo` is a
reference to a heap-allocated dict. -/
structure ItemRef where
  name : String
  df : List Row
  dim : Int
  channels : Option (List Int)
  channel_label : Option (List String)
  histo_addr : Nat
  histo_edges : Option (List (List ℚ))
  histo_mask : Option (List (List Int))
  bin_sizes : Option (List ℚ)
  gt_label_map : Option (List (Int × String))
deriving Repr, DecidableEq

/-- Dereferences an `ItemRef` into a value-level `Item`. -/
def deref_item (h : PyHeap) (ir : ItemRef) : Item :=
  ⟨ir.name, ir.df, ir.dim, ir.channels, ir.channel_label, heap_get h ir.histo_addr,
   ir.histo_edges, ir.histo_mask, ir.bin_sizes, ir.gt_label_map⟩

/-- Re-packages an updated `Item` as a reference at the given address. -/
def ref_of_item (it : Item) (a : Nat) : ItemRef :=
  ⟨it.name, it.df, it.dim, it.channels, it.channel_label, a, it.histo_edges,
   it.histo_mask, it.bin_sizes, it.gt_label_map⟩

/-- Model of the Loader under reference semantics: `file_to_datastruc` ends
with `item(name, df, dim, channels, channel_label)`, leaving `histo` at its
default, so every loader-created instance holds a reference to the shared
default dict at address `0`. -/
def file_to_datastruc_ref (input_file : RawFile) (file_type : String) (dim : Int)
    (z_col : Option String) (frame_col : Option String)
    (channel_label : Option (List String)) : Except PyError ItemRef :=
  (file_to_datastruc input_file file_type dim z_col frame_col channel_label).map
    (fun it => ref_of_item it 0)

/-- Model of `coord_2_histo` under reference semantics: the computation is the
pure one on the dereferenced item, but the `self.histo[chan] = ...` updates
land in the heap cell the instance references. -/
def coord_2_histo_ref (h : PyHeap) (ir : ItemRef) (histo_size : List Nat) :
    Except PyError (PyHeap × ItemRef) :=
  match coord_2_histo (deref_item h ir) histo_size with
  | .error e => .error e
  | .ok it => .ok (heap_set h ir.histo_addr it.histo, ref_of_item it ir.histo_addr)

/-! ### Concrete sample data (used to instantiate the general theorems) -/

/-- A sample 2-channel 2D point cloud: the concrete scenario of the spec
(rows `(chan 0, 0, 0)`, `(chan 0, 10, 10)`, `(chan 1, 5, 5)`). -/
def item_two_chan : Item :=
  ⟨"cell", [⟨0, 0, 0, none, none, none, none, none, none⟩,
            ⟨0, 10, 10, none, none, none, none, none, none⟩,
            ⟨1, 5, 5, none, none, none, none, none, none⟩],
   2, some [0, 1], some ["egfr", "ereg"], [], none, none, none,
   some [(0, "background")]⟩

/-- A sample point cloud whose Binner has run (bin widths `5.005`). -/
def item_binned : Item :=
  ⟨"cell", [⟨0, 0, 0, none, none, none, none, none, none⟩,
            ⟨0, 10, 10, none, none, none, none, none, none⟩],
   2, some [0], some ["egfr"], [], none, none, some [1001/200, 1001/200], none⟩

/-- A sample single-channel cloud whose rendering with `histo_size = (2, 3)`
has a localisation in pixel `(1, 0)` (used against a non-square mask). -/
def item_rect : Item :=
  ⟨"m", [⟨0, 0, 0, none, none, none, none, none, none⟩,
         ⟨0, 10, 0, none, none, none, none, none, none⟩,
         ⟨0, 0, 9, none, none, none, none, none, none⟩],
   2, some [0], some ["unk"], [], none, none, none, none⟩

/-- A sample indexed cloud with a square `2 × 2` mask attached. -/
def item_square_mask : Item :=
  ⟨"m", [⟨0, 0, 0, none, none, some 0, some 1, none, none⟩,
         ⟨0, 3, 3, none, none, some 1, some 1, none, some 5⟩,
         ⟨0, 9, 9, none, none, some 4, some 0, none, none⟩],
   2, some [0], some ["unk"], [], none, some [[7, 8], [9, 10]], none, none⟩

/-- A sample cloud for the CSV label join: channels `0`, `1` and `-1`, two
labels. -/
def item_csv : Item :=
  ⟨"cell", [⟨0, 1, 2, none, none, none, none, none, none⟩,
            ⟨5, 3, 4, none, none, none, none, none, none⟩,
            ⟨1, 5, 6, none, none, none, none, none, none⟩,
            ⟨-1, 7, 8, none, none, none, none, none, none⟩],
   2, some [0, 1], some ["egfr", "ereg"], [], none, none, none, none⟩

/-- A parquet file already sitting on disk (for the overwrite guard). -/
def pfile_existing : PFile :=
  ⟨[], ⟨"old", str_of_int 2, .pynone, .pynone, .null, .pynone⟩⟩

/-- A small raw file with one channel and two localisations. -/
def raw_small : RawFile :=
  ⟨"raw_test.csv", [⟨0, 0, 0, 0, 0⟩, ⟨0, 10, 10, 0, 0⟩]⟩

/-! ## Lemmas -/

/-! ### Column minima and maxima -/

theorem foldl_min_le (t : List ℚ) (a : ℚ) : t.foldl min a ≤ a := by
  induction t generalizing a with
  | nil => simp
  | cons b t ih => exact le_trans (ih (min a b)) (min_le_left a b)

theorem foldl_min_le_mem (t : List ℚ) (a q : ℚ) (h : q ∈ t) : t.foldl min a ≤ q := by
  induction t generalizing a with
  | nil => cases h
  | cons b t ih =>
    rcases List.mem_cons.mp h with h | h
    · subst h
      exact le_trans (foldl_min_le t (min a q)) (min_le_right a q)
    · exact ih (min a b) h

theorem col_min_le (l : List ℚ) (q : ℚ) (h : q ∈ l) : col_min l ≤ q := by
  cases l with
  | nil => cases h
  | cons a t =>
    rcases List.mem_cons.mp h with h | h
    · subst h; exact foldl_min_le t q
    · exact foldl_min_le_mem t a q h

theorem le_foldl_max (t : List ℚ) (a : ℚ) : a ≤ t.foldl max a := by
  induction t generalizing a with
  | nil => simp
  | cons b t ih => exact le_trans (le_max_left a b) (ih (max a b))

theorem le_foldl_max_mem (t : List ℚ) (a q : ℚ) (h : q ∈ t) : q ≤ t.foldl max a := by
  induction t generalizing a with
  | nil => cases h
  | cons b t ih =>
    rcases List.mem_cons.mp h with h | h
    · subst h
      exact le_trans (le_max_right a q) (le_foldl_max t (max a q))
    · exact ih (max a b) h

theorem le_col_max (l : List ℚ) (q : ℚ) (h : q ∈ l) : q ≤ col_max l := by
  cases l with
  | nil => cases h
  | cons a t =>
    rcases List.mem_cons.mp h with h | h
    · subst h; exact le_foldl_max t q
    · exact le_foldl_max_mem t a q h

/-! ### Axis geometry -/

theorem axis_edges_length (mn w : ℚ) (bins : Nat) :
    (axis_edges mn w bins).length = bins + 1 := by
  unfold axis_edges
  rw [List.length_map, List.length_range]

theorem axis_edges_getElem (mn w : ℚ) (bins i : Nat)
    (h : i < (axis_edges mn w bins).length) :
    (axis_edges mn w bins)[i] = mn + w * (i : ℚ) := by
  unfold axis_edges at h ⊢
  rw [List.getElem_map, List.getElem_range]

theorem axis_edges_getD (mn w : ℚ) (bins i : Nat) (hi : i ≤ bins) :
    (axis_edges mn w bins).getD i 0 = mn + w * (i : ℚ) := by
  have hlen : i < (axis_edges mn w bins).length := by
    rw [axis_edges_length]; omega
  rw [List.getD_eq_getElem _ _ hlen, axis_edges_getElem mn w bins i hlen]

theorem axis_edges_head (mn w : ℚ) (bins : Nat) :
    (axis_edges mn w bins).head? = some mn := by
  rw [axis_edges, List.range_succ_eq_map, List.map_cons]
  rw [List.head?_cons]
  norm_num

theorem axis_edges_getLast (mn w : ℚ) (bins : Nat) :
    (axis_edges mn w bins).getLast? = some (mn + w * (bins : ℚ)) := by
  rw [List.getLast?_eq_getElem?, axis_edges_length]
  simp only [Nat.add_sub_cancel]
  have hlen : bins < (axis_edges mn w bins).length := by
    rw [axis_edges_length]; omega
  rw [List.getElem?_eq_getElem hlen, axis_edges_getElem mn w bins bins hlen]

theorem axis_edges_sorted (mn w : ℚ) (bins : Nat) (hw : 0 < w) :
    (axis_edges mn w bins).Pairwise (fun a b => a < b) := by
  rw [List.pairwise_iff_get]
  intro i j hij
  have hval : ∀ k : Fin (axis_edges mn w bins).length,
      (axis_edges mn w bins).get k = mn + w * ((k : Nat) : ℚ) := by
    intro k
    rw [List.get_eq_getElem, axis_edges_getElem mn w bins k.val k.isLt]
  rw [hval i, hval j]
  have hij' : ((i : Nat) : ℚ) < ((j : Nat) : ℚ) := by exact_mod_cast hij
  have := mul_lt_mul_of_pos_left hij' hw
  linarith

theorem bin_w_pos (col : List ℚ) (bins : Nat) (hlt : col_min col < col_max col)
    (hb : 0 < bins) : 0 < bin_w col bins := by
  unfold bin_w
  have hbq : (0 : ℚ) < (bins : ℚ) := by exact_mod_cast hb
  apply mul_pos (div_pos (by linarith) hbq)
  norm_num [inflate]

theorem max_lt_last_edge (col : List ℚ) (bins : Nat)
    (hlt : col_min col < col_max col) (hb : 0 < bins) :
    col_max col < col_min col + bin_w col bins * (bins : ℚ) := by
  have hbq : (0 : ℚ) < (bins : ℚ) := by exact_mod_cast hb
  have h1 : bin_w col bins * (bins : ℚ) = (col_max col - col_min col) * inflate := by
    unfold bin_w
    rw [div_mul_eq_mul_div, div_mul_cancel₀ _ hbq.ne']
  rw [h1, inflate]
  linarith

theorem py_int_cast_floor (q : ℚ) (h : 0 ≤ q) : py_int_cast q = ⌊q⌋ := by
  simp [py_int_cast, h]

theorem pixel_nonneg (mn w q : ℚ) (hw : 0 < w) (hq : mn ≤ q) :
    0 ≤ ⌊(q - mn) / w⌋ :=
  Int.floor_nonneg.mpr (div_nonneg (by linarith) hw.le)

theorem pixel_lt (mn w q : ℚ) (bins : Nat) (hw : 0 < w)
    (hq : q < mn + w * (bins : ℚ)) : ⌊(q - mn) / w⌋ < (bins : Int) := by
  have h : (q - mn) / w < ((bins : Int) : ℚ) := by
    rw [div_lt_iff hw]; push_cast; linarith
  exact Int.floor_lt.mpr h

theorem in_bin_axis (mn w q : ℚ) (bins i : Nat) (hq2 : q < mn + w * (bins : ℚ))
    (hi : i < bins) :
    in_bin (axis_edges mn w bins) i q = true ↔
      (mn + w * (i : ℚ) ≤ q ∧ q < mn + w * ((i : ℚ) + 1)) := by
  have e1 := axis_edges_getD mn w bins i (by omega)
  have e2 := axis_edges_getD mn w bins (i + 1) (by omega)
  unfold in_bin
  rw [e1, e2, axis_edges_length]
  by_cases hlast : i + 2 = bins + 1
  · rw [if_pos hlast]
    have hib : (i : ℚ) + 1 = (bins : ℚ) := by
      have h : i + 1 = bins := by omega
      exact_mod_cast h
    simp only [Bool.and_eq_true, decide_eq_true_eq]
    push_cast
    constructor
    · rintro ⟨h1, _⟩
      exact ⟨h1, by rw [hib]; linarith⟩
    · rintro ⟨h1, h2⟩
      exact ⟨h1, le_of_lt h2⟩
  · rw [if_neg hlast]
    simp only [Bool.and_eq_true, decide_eq_true_eq]
    push_cast
    exact Iff.rfl

theorem in_bin_iff_floor (mn w q : ℚ) (bins i : Nat) (hw : 0 < w) (hq1 : mn ≤ q)
    (hq2 : q < mn + w * (bins : ℚ)) (hi : i < bins) :
    in_bin (axis_edges mn w bins) i q = true ↔ (i : Int) = ⌊(q - mn) / w⌋ := by
  rw [in_bin_axis mn w q bins i hq2 hi]
  constructor
  · rintro ⟨h1, h2⟩
    have ha : (((i : Int)) : ℚ) ≤ (q - mn) / w := by
      rw [le_div_iff hw]; push_cast; linarith
    have hb : (q - mn) / w < ((i : Int) : ℚ) + 1 := by
      rw [div_lt_iff hw]; push_cast; linarith
    exact (Int.floor_eq_iff.mpr ⟨ha, hb⟩).symm
  · intro h
    have hfle : (((i : Int)) : ℚ) ≤ (q - mn) / w := by
      rw [h]; exact Int.floor_le _
    have hflt : (q - mn) / w < ((i : Int) : ℚ) + 1 := by
      rw [h]; exact Int.lt_floor_add_one _
    have h1 := (le_div_iff hw).mp hfle
    have h2 := (div_lt_iff hw).mp hflt
    constructor
    · push_cast at h1 ⊢; linarith
    · push_cast at h2 ⊢; linarith

theorem countP_range_le (n m : Nat) :
    (List.range n).countP (fun i => decide (i ≤ m)) = min n (m + 1) := by
  induction n with
  | zero => simp
  | succ n ih =>
    rw [List.range_succ, List.countP_append, ih]
    by_cases h : n ≤ m
    · simp [List.countP_cons, h]
      omega
    · simp [List.countP_cons, h]
      omega

theorem digitize_axis (mn w q : ℚ) (bins : Nat) (hw : 0 < w) (hq1 : mn ≤ q)
    (hq2 : q < mn + w * (bins : ℚ)) :
    digitize q (axis_edges mn w bins) = ⌊(q - mn) / w⌋.toNat + 1 := by
  have hf0 : 0 ≤ ⌊(q - mn) / w⌋ := pixel_nonneg mn w q hw hq1
  have hfb : ⌊(q - mn) / w⌋ < (bins : Int) := pixel_lt mn w q bins hw hq2
  unfold digitize axis_edges
  rw [List.filter_map, List.length_map, ← List.countP_eq_length_filter]
  have hcong : ∀ i ∈ List.range (bins + 1),
      (((fun e => decide (e ≤ q)) ∘ (fun i : Nat => mn + w * (i : ℚ))) i = true
        ↔ decide (i ≤ ⌊(q - mn) / w⌋.toNat) = true) := by
    intro i _
    simp only [Function.comp, decide_eq_true_eq]
    constructor
    · intro hle
      have hqd : ((i : Int) : ℚ) ≤ (q - mn) / w := by
        rw [le_div_iff₀ hw]; push_cast; linarith
      have := Int.le_floor.mpr hqd
      omega
    · intro hle
      have hif : (i : Int) ≤ ⌊(q - mn) / w⌋ := by omega
      have := Int.le_floor.mp hif
      rw [le_div_iff₀ hw] at this
      push_cast at this ⊢
      linarith
  rw [List.countP_congr hcong, countP_range_le]
  omega

/-! ### Double counting for the histogram total -/

theorem range_map_sum (n : Nat) (f : Nat → Nat) :
    ((List.range n).map f).sum = ∑ i ∈ Finset.range n, f i := by
  induction n with
  | zero => simp
  | succ n ih =>
    rw [List.range_succ, List.map_append, List.sum_append, Finset.sum_range_succ, ih]
    simp

theorem hist2_sum_eq (xe ye : List ℚ) (pts : List (ℚ × ℚ)) :
    hist2_sum (histogramdd2 xe ye pts)
      = ∑ i ∈ Finset.range (xe.length - 1), ∑ j ∈ Finset.range (ye.length - 1),
          (pts.filter (fun p => in_bin xe i p.1 && in_bin ye j p.2)).length := by
  unfold hist2_sum histogramdd2
  rw [List.map_map, range_map_sum]
  refine Finset.sum_congr rfl (fun i _ => ?_)
  simp only [Function.comp]
  rw [range_map_sum]

theorem sum_sum_ite_unique (n m i0 j0 : Nat) (P : Nat → Nat → Bool)
    (hi : i0 < n) (hj : j0 < m)
    (hP : ∀ i j, i < n → j < m → (P i j = true ↔ (i = i0 ∧ j = j0))) :
    (∑ i ∈ Finset.range n, ∑ j ∈ Finset.range m,
      (if P i j then 1 else 0)) = 1 := by
  have step1 : ∀ i ∈ Finset.range n,
      (∑ j ∈ Finset.range m, (if P i j then 1 else 0))
        = (if i = i0 then 1 else 0) := by
    intro i hi'
    have hi'' := Finset.mem_range.mp hi'
    by_cases hii : i = i0
    · subst hii
      have hterm : ∀ j ∈ Finset.range m,
          (if P i j then 1 else 0) = (if j = j0 then 1 else 0) := by
        intro j hj'
        have hiff := hP i j hi'' (Finset.mem_range.mp hj')
        by_cases hjj : j = j0
        · subst hjj; simp [hiff.mpr ⟨rfl, rfl⟩]
        · have hfalse : P i j = false :=
            Bool.eq_false_iff.mpr (fun hc => hjj (hiff.mp hc).2)
          simp [hfalse, hjj]
      rw [Finset.sum_congr rfl hterm,
        Finset.sum_ite_eq' (Finset.range m) j0 (fun _ => 1)]
      simp [Finset.mem_range.mpr hj]
    · have hterm : ∀ j ∈ Finset.range m, (if P i j then (1 : Nat) else 0) = 0 := by
        intro j hj'
        have hiff := hP i j hi'' (Finset.mem_range.mp hj')
        have hfalse : P i j = false :=
          Bool.eq_false_iff.mpr (fun hc => hii (hiff.mp hc).1)
        simp [hfalse]
      rw [Finset.sum_congr rfl hterm]
      simp [hii]
  rw [Finset.sum_congr rfl step1,
    Finset.sum_ite_eq' (Finset.range n) i0 (fun _ => 1)]
  simp [Finset.mem_range.mpr hi]

theorem sum_filter_count {α : Type} (n m : Nat) (Q : Nat → Nat → α → Bool)
    (pts : List α)
    (h : ∀ p ∈ pts, ∃ i0 j0 : Nat, i0 < n ∧ j0 < m ∧
      ∀ i j : Nat, i < n → j < m → (Q i j p = true ↔ (i = i0 ∧ j = j0))) :
    (∑ i ∈ Finset.range n, ∑ j ∈ Finset.range m,
      (pts.filter (Q i j)).length) = pts.length := by
  induction pts with
  | nil => simp
  | cons p pts ih =>
    obtain ⟨i0, j0, hi0, hj0, huniq⟩ := h p (List.mem_cons_self p pts)
    have hrec := ih (fun x hx => h x (List.mem_cons_of_mem _ hx))
    have hstep : (∑ i ∈ Finset.range n, ∑ j ∈ Finset.range m,
        ((p :: pts).filter (Q i j)).length)
      = (∑ i ∈ Finset.range n, ∑ j ∈ Finset.range m,
          ((if Q i j p then 1 else 0) + (pts.filter (Q i j)).length)) := by
      refine Finset.sum_congr rfl (fun i _ => Finset.sum_congr rfl (fun j _ => ?_))
      by_cases hc : Q i j p = true
      · simp [List.filter_cons, hc, Nat.add_comm]
      · simp [List.filter_cons, hc]
    rw [hstep]
    have hdist : (∑ i ∈ Finset.range n, ∑ j ∈ Finset.range m,
        ((if Q i j p then 1 else 0) + (pts.filter (Q i j)).length))
      = (∑ i ∈ Finset.range n, ∑ j ∈ Finset.range m, (if Q i j p then 1 else 0))
        + (∑ i ∈ Finset.range n, ∑ j ∈ Finset.range m, (pts.filter (Q i j)).length) := by
      rw [← Finset.sum_add_distrib]
      refine Finset.sum_congr rfl (fun i _ => ?_)
      rw [← Finset.sum_add_distrib]
    rw [hdist, sum_sum_ite_unique n m i0 j0 _ hi0 hj0 huniq, hrec]
    simp [Nat.add_comm]

/-! ### Dict updates from the per-channel histogram loop -/

theorem dict_get_set_self (d : List (Int × HistArr)) (k : Int) (v : HistArr) :
    dict_get (dict_set d k v) k = some v := by
  induction d with
  | nil => simp [dict_set, dict_get, List.find?]
  | cons p d ih =>
    by_cases h : p.1 == k
    · simp only [dict_set, h, if_true]
      simp [dict_get, List.find?]
    · simp only [dict_set, h, if_false]
      simp only [dict_get, List.find?, h] at ih ⊢
      exact ih

theorem dict_get_set_ne (d : List (Int × HistArr)) (k k' : Int) (v : HistArr)
    (h : k' ≠ k) : dict_get (dict_set d k v) k' = dict_get d k' := by
  have hkk : (k == k') = false :=
    beq_eq_false_iff_ne.mpr (fun hc : k = k' => h hc.symm)
  induction d with
  | nil =>
    simp [dict_set, dict_get, List.find?, hkk]
  | cons p d ih =>
    by_cases hp : p.1 == k
    · have hpk : p.1 = k := beq_iff_eq.mp hp
      simp only [dict_set, hp, if_true]
      have h2 : (p.1 == k') = false := by rw [hpk]; exact hkk
      simp [dict_get, List.find?, hkk, h2]
    · simp only [dict_set, hp, if_false]
      by_cases hq : p.1 == k'
      · simp [dict_get, List.find?, hq]
      · simp only [dict_get, List.find?, hq] at ih ⊢
        exact ih

theorem dict_get_foldl_not_mem (cs : List Int) (d : List (Int × HistArr))
    (f : Int → HistArr) (c : Int) (h : c ∉ cs) :
    dict_get (cs.foldl (fun acc ch => dict_set acc ch (f ch)) d) c = dict_get d c := by
  induction cs generalizing d with
  | nil => rfl
  | cons a cs ih =>
    simp only [List.foldl_cons]
    rw [ih _ (fun hc => h (List.mem_cons_of_mem _ hc))]
    exact dict_get_set_ne d a c (f a) (fun hc => h (hc ▸ List.mem_cons_self a cs))

theorem dict_get_foldl_mem (cs : List Int) (d : List (Int × HistArr))
    (f : Int → HistArr) (c : Int) (h : c ∈ cs) :
    dict_get (cs.foldl (fun acc ch => dict_set acc ch (f ch)) d) c = some (f c) := by
  induction cs generalizing d with
  | nil => cases h
  | cons a cs ih =>
    simp only [List.foldl_cons]
    by_cases hc : c ∈ cs
    · exact ih _ hc
    · have hca : c = a := by
        rcases List.mem_cons.mp h with h' | h'
        · exact h'
        · exact absurd h' hc
      subst hca
      rw [dict_get_foldl_not_mem cs _ f c hc, dict_get_set_self]

/-! ### The insertion sort permutes its input -/

theorem insert_le_perm {α : Type} (le : α → α → Bool) (a : α) (l : List α) :
    (insert_le le a l).Perm (a :: l) := by
  induction l with
  | nil => exact List.Perm.refl _
  | cons b l ih =>
    unfold insert_le
    by_cases h : le a b
    · rw [if_pos h]
    · rw [if_neg h]
      exact (List.Perm.cons b ih).trans (List.Perm.swap a b l)

theorem sort_le_perm {α : Type} (le : α → α → Bool) (l : List α) :
    (sort_le le l).Perm l := by
  induction l with
  | nil => exact List.Perm.refl _
  | cons a l ih =>
    exact (insert_le_perm le a (sort_le le l)).trans (List.Perm.cons a ih)

theorem mem_sort_le {α : Type} (le : α → α → Bool) (l : List α) (a : α) :
    a ∈ sort_le le l ↔ a ∈ l :=
  (sort_le_perm le l).mem_iff

/-! ### First-match lookup with unique keys -/

theorem find?_of_unique {α : Type} (l : List α) (pred : α → Bool) (t : α)
    (hmem : t ∈ l) (ht : pred t = true)
    (huniq : ∀ u ∈ l, pred u = true → u = t) :
    l.find? pred = some t := by
  induction l with
  | nil => cases hmem
  | cons a l ih =>
    by_cases ha : pred a = true
    · have haa : a = t := huniq a (List.mem_cons_self a l) ha
      subst haa
      rw [List.find?_cons_of_pos _ ha]
    · rw [List.find?_cons_of_neg _ (by simp [ha])]
      rcases List.mem_cons.mp hmem with h' | h'
      · subst h'; exact absurd ht ha
      · exact ih h' (fun u hu hp => huniq u (List.mem_cons_of_mem _ hu) hp)

/-! ### Evaluating the 2D pipeline -/

theorem coord_2_pixel_2d_eval (it : Item) (xw yw : ℚ)
    (hdim : it.dim = 2) (hbs : it.bin_sizes = some [xw, yw]) :
    coord_2_pixel it = .ok { it with df := it.df.map (fun r =>
      { r with
        x_pixel := some (py_int_cast ((r.x - col_min (it.df.map Row.x)) / xw)),
        y_pixel := some (py_int_cast ((r.y - col_min (it.df.map Row.y)) / yw)),
        z_pixel := none }) } := by
  unfold coord_2_pixel
  rw [hbs, if_pos hdim]

theorem coord_2_histo_2d_eval (it : Item) (xb yb : Nat) (cs : List Int)
    (hdim : it.dim = 2) (hcs : it.channels = some cs) :
    coord_2_histo it [xb, yb] = .ok { it with
      df := it.df.map (fun r =>
        { r with
          x_pixel := some (py_int_cast
            ((r.x - col_min (it.df.map Row.x)) / bin_w (it.df.map Row.x) xb)),
          y_pixel := some (py_int_cast
            ((r.y - col_min (it.df.map Row.y)) / bin_w (it.df.map Row.y) yb)),
          z_pixel := none }),
      bin_sizes := some [bin_w (it.df.map Row.x) xb, bin_w (it.df.map Row.y) yb],
      histo_edges := some
        [axis_edges (col_min (it.df.map Row.x)) (bin_w (it.df.map Row.x) xb) xb,
         axis_edges (col_min (it.df.map Row.y)) (bin_w (it.df.map Row.y) yb) yb],
      histo := cs.foldl (fun h chan => dict_set h chan (.h2 (histogramdd2
        (axis_edges (col_min (it.df.map Row.x)) (bin_w (it.df.map Row.x) xb) xb)
        (axis_edges (col_min (it.df.map Row.y)) (bin_w (it.df.map Row.y) yb) yb)
        ((it.df.filter (fun r => r.channel == chan)).map (fun r => (r.x, r.y))))))
        it.histo } := by
  have hpix := coord_2_pixel_2d_eval
    { it with
      channels := some cs,
      bin_sizes := some [bin_w (it.df.map Row.x) xb, bin_w (it.df.map Row.y) yb],
      histo_edges := some
        [axis_edges (col_min (it.df.map Row.x)) (bin_w (it.df.map Row.x) xb) xb,
         axis_edges (col_min (it.df.map Row.y)) (bin_w (it.df.map Row.y) yb) yb],
      histo := cs.foldl (fun h chan => dict_set h chan (.h2 (histogramdd2
        (axis_edges (col_min (it.df.map Row.x)) (bin_w (it.df.map Row.x) xb) xb)
        (axis_edges (col_min (it.df.map Row.y)) (bin_w (it.df.map Row.y) yb) yb)
        ((it.df.filter (fun r => r.channel == chan)).map (fun r => (r.x, r.y))))))
        it.histo }
    (bin_w (it.df.map Row.x) xb) (bin_w (it.df.map Row.y) yb) hdim rfl
  unfold coord_2_histo
  rw [if_pos hdim, hcs]
  exact hpix

/-! ### Filesystem writes -/

theorem fs_read_write_self (fs : FileSys) (path : String) (f : PFile) :
    fs_read (fs_write fs path f) path = some f := by
  induction fs with
  | nil => simp [fs_write, fs_read, List.find?]
  | cons p fs ih =>
    by_cases h : p.1 == path
    · simp only [fs_write, h, if_true]
      simp [fs_read, List.find?]
    · simp only [fs_write, h, if_false]
      simp only [fs_read, List.find?, h] at ih ⊢
      exact ih

/-! ### Serialization encode/decode round trips -/

theorem int_of_str_str_of_int (n : Int) : int_of_str (str_of_int n) = n := by
  by_cases h : n < 0
  · simp [int_of_str, str_of_int, h, Nat.ofDigits_digits]
    rw [abs_of_neg h]; ring
  · simp [int_of_str, str_of_int, h, Nat.ofDigits_digits]
    exact not_lt.mp h

theorem json_loads_dumps (m : Option (List (Int × String))) :
    json_loads_map (json_dumps_map m) = m := by
  cases m with
  | none => rfl
  | some l =>
    simp only [json_dumps_map, json_loads_map, Option.some.injEq, List.map_map]
    induction l with
    | nil => rfl
    | cons p t ih => simp [Function.comp, int_of_str_str_of_int, ih]

theorem dec_enc_int_list (v : Option (List Int)) :
    dec_int_list (enc_int_list v) = some v := by
  cases v with
  | none => rfl
  | some l =>
    simp only [enc_int_list, dec_int_list]
    have h : opt_list dec_int (l.map PyLit.int) = some l := by
      induction l with
      | nil => rfl
      | cons a t ih => simp [opt_list, ih, dec_int]
    simp [h]

theorem dec_enc_str_list (v : Option (List String)) :
    dec_str_list (enc_str_list v) = some v := by
  cases v with
  | none => rfl
  | some l =>
    simp only [enc_str_list, dec_str_list]
    have h : opt_list dec_str (l.map PyLit.str) = some l := by
      induction l with
      | nil => rfl
      | cons a t ih => simp [opt_list, ih, dec_str]
    simp [h]

theorem dec_enc_float_tuple (v : Option (List ℚ)) :
    dec_float_tuple (enc_float_tuple v) = some v := by
  cases v with
  | none => rfl
  | some l =>
    simp only [enc_float_tuple, dec_float_tuple]
    have h : opt_list dec_float (l.map PyLit.float) = some l := by
      induction l with
      | nil => rfl
      | cons a t ih => simp [opt_list, ih, dec_float]
    simp [h]

/-! ## Claim theorems -/

/-- C1: a PointCloud saved with the Serializer's save (no drop options, the
item's own label map passed for persistence, fresh destination) and reloaded
with load comes back with `dim`, `channels`, `channel_label`, `bin_sizes`,
`gt_label_map` (with integer keys) and `name` equal to the original's, and
with the same table contents up to row order. -/
theorem save_load_round_trip (P : Item) (fs : FileSys) (path : String)
    (hfree : fs_read fs path = none) (hinit : init_ok P = true) :
    ∃ Q : Item,
      load_from_parquet
          (save_to_parquet P fs path false false P.gt_label_map false).2 path
        = .ok Q
      ∧ Q.dim = P.dim ∧ Q.channels = P.channels
      ∧ Q.channel_label = P.channel_label ∧ Q.bin_sizes = P.bin_sizes
      ∧ Q.gt_label_map = P.gt_label_map ∧ Q.name = P.name
      ∧ Q.df.Perm P.df := by
  have hsave : (save_to_parquet P fs path false false P.gt_label_map false).2
      = fs_write fs path
          ⟨P.df, ⟨P.name, str_of_int P.dim, enc_int_list P.channels,
            enc_str_list P.channel_label, json_dumps_map P.gt_label_map,
            enc_float_tuple P.bin_sizes⟩⟩ := by
    unfold save_to_parquet
    rw [hfree]
    simp
  rw [hsave]
  unfold load_from_parquet
  rw [fs_read_write_self]
  simp only [dec_enc_int_list, dec_enc_str_list, dec_enc_float_tuple,
    int_of_str_str_of_int, json_loads_dumps]
  obtain ⟨name, df, dim, channels, channel_label, histo, hedges, hmask, bs, gtm⟩ := P
  unfold init_ok at hinit
  simp only at hinit ⊢
  cases channels with
  | none =>
    cases channel_label with
    | none =>
      simp only [item_init, Option.isSome_none, Bool.false_eq_true, or_self,
        if_false]
      exact ⟨_, rfl, rfl, rfl, rfl, rfl, rfl, rfl, List.Perm.refl _⟩
    | some ls => exact Bool.noConfusion hinit
  | some cs =>
    cases channel_label with
    | none => exact Bool.noConfusion hinit
    | some ls =>
      have hle : cs.length ≤ ls.length := of_decide_eq_true hinit
      simp only [item_init, Option.isSome_some, true_or, if_true]
      rw [if_neg (by omega : ¬ ls.length < cs.length)]
      exact ⟨_, rfl, rfl, rfl, rfl, rfl, rfl, rfl, List.Perm.refl _⟩

/-- C1 witness: the round trip at a concrete two-channel cloud through an empty
filesystem. -/
theorem save_load_round_trip_witness :
    ∃ Q : Item,
      load_from_parquet
          (save_to_parquet item_two_chan [] "out.parquet" false false
            item_two_chan.gt_label_map false).2 "out.parquet"
        = .ok Q
      ∧ Q.dim = item_two_chan.dim ∧ Q.channels = item_two_chan.channels
      ∧ Q.channel_label = item_two_chan.channel_label
      ∧ Q.bin_sizes = item_two_chan.bin_sizes
      ∧ Q.gt_label_map = item_two_chan.gt_label_map
      ∧ Q.name = item_two_chan.name
      ∧ Q.df.Perm item_two_chan.df :=
  save_load_round_trip item_two_chan [] "out.parquet" rfl (by decide)

/-- C6: saving onto an existing path with `overwrite = false` raises the
`ValueError` the spec names `FileExists`, and the file at that path is
unchanged (nothing is written). -/
theorem save_no_overwrite (P : Item) (fs : FileSys) (path : String)
    (dz dp : Bool) (g : Option (List (Int × String)))
    (hexists : (fs_read fs path).isSome = true) :
    (save_to_parquet P fs path dz dp g false).1
        = some (.valueError
          "Cannot overwite. If you want to overwrite please set overwrite==True")
      ∧ fs_read (save_to_parquet P fs path dz dp g false).2 path
          = fs_read fs path := by
  unfold save_to_parquet
  rw [if_pos ⟨hexists, by simp⟩]
  exact ⟨rfl, rfl⟩

/-- C6 witness: the overwrite guard fires on a concrete one-file filesystem. -/
theorem save_no_overwrite_witness :
    (save_to_parquet item_two_chan [("p.parquet", pfile_existing)] "p.parquet"
        false false none false).1
        = some (.valueError
          "Cannot overwite. If you want to overwrite please set overwrite==True")
      ∧ fs_read (save_to_parquet item_two_chan [("p.parquet", pfile_existing)]
          "p.parquet" false false none false).2 "p.parquet"
          = fs_read [("p.parquet", pfile_existing)] "p.parquet" :=
  save_no_overwrite item_two_chan [("p.parquet", pfile_existing)] "p.parquet"
    false false none rfl

/-- C7 (code bug): importing with the `channel_label` parameter left at its
default `None` never returns a PointCloud — the label-count guard of
`item.__init__` tests `(channels is not None) or (channel_label is not None)`
(an `or` where the intent is `and`), enters the guard and evaluates
`len(None)`, raising `TypeError`, although all the validations of the claim
pass on this input. -/
theorem import_omitted_label_type_error :
    file_to_datastruc raw_small "csv" 2 none none none
      = .error (.typeError "object of type NoneType has no len()") := by
  rfl

/-- C9 (code bug): two PointClouds created by the Loader share the mutable
default `histo` dict of `item.__init__`; rendering the first changes the
`histo` mapping seen through the second. -/
theorem render_mutates_sibling_histo :
    ∃ P Q : ItemRef,
      file_to_datastruc_ref raw_small "csv" 2 none none (some ["unk"]) = .ok P
      ∧ file_to_datastruc_ref ⟨"raw_test2.csv", raw_small.rows⟩ "csv" 2 none
          none (some ["unk"]) = .ok Q
      ∧ heap_get py_start_heap Q.histo_addr = []
      ∧ ∃ (h1 : PyHeap) (P1 : ItemRef),
          coord_2_histo_ref py_start_heap P [1, 1] = .ok (h1, P1)
          ∧ heap_get h1 Q.histo_addr ≠ heap_get py_start_heap Q.histo_addr := by
  refine ⟨_, _, rfl, rfl, rfl, _, _, rfl, ?_⟩
  decide

/-- C4: after the Pixel Indexer runs on a 2D cloud whose Binner has set
(positive) bin widths, every row's stored pixel value is exactly
`floor((coord - min) / bin_width)` on each axis — the truncating int cast
coincides with `floor` on this non-negative domain and no clamping is applied
afterwards, so the row holding an axis maximum also keeps the unclamped
value. -/
theorem pixel_unclamped_floor (it : Item) (xw yw : ℚ)
    (hdim : it.dim = 2) (hbs : it.bin_sizes = some [xw, yw])
    (hxw : 0 < xw) (hyw : 0 < yw) :
    ∃ it', coord_2_pixel it = .ok it'
      ∧ it'.df.length = it.df.length
      ∧ ∀ i : Nat, i < it.df.length →
          (it'.df.getD i row0).x_pixel
              = some ⌊((it.df.getD i row0).x - col_min (it.df.map Row.x)) / xw⌋
            ∧ (it'.df.getD i row0).y_pixel
              = some ⌊((it.df.getD i row0).y - col_min (it.df.map Row.y)) / yw⌋ := by
  refine ⟨_, coord_2_pixel_2d_eval it xw yw hdim hbs, by simp, ?_⟩
  intro i hi
  have hi' : i < (it.df.map (fun r =>
      { r with
        x_pixel := some (py_int_cast ((r.x - col_min (it.df.map Row.x)) / xw)),
        y_pixel := some (py_int_cast ((r.y - col_min (it.df.map Row.y)) / yw)),
        z_pixel := none })).length := by
    simpa using hi
  rw [List.getD_eq_getElem _ _ hi', List.getD_eq_getElem _ _ hi, List.getElem_map]
  have hmemx : (it.df[i]).x ∈ it.df.map Row.x :=
    List.mem_map.mpr ⟨it.df[i], List.getElem_mem hi, rfl⟩
  have hmemy : (it.df[i]).y ∈ it.df.map Row.y :=
    List.mem_map.mpr ⟨it.df[i], List.getElem_mem hi, rfl⟩
  constructor
  · show some (py_int_cast (((it.df[i]).x - col_min (it.df.map Row.x)) / xw)) = _
    rw [py_int_cast_floor _ (div_nonneg
      (sub_nonneg.mpr (col_min_le _ _ hmemx)) hxw.le)]
  · show some (py_int_cast (((it.df[i]).y - col_min (it.df.map Row.y)) / yw)) = _
    rw [py_int_cast_floor _ (div_nonneg
      (sub_nonneg.mpr (col_min_le _ _ hmemy)) hyw.le)]

/-- C4 witness: the unclamped floor formula at a concrete binned cloud. -/
theorem pixel_unclamped_floor_witness :
    ∃ it', coord_2_pixel item_binned = .ok it'
      ∧ it'.df.length = item_binned.df.length
      ∧ ∀ i : Nat, i < item_binned.df.length →
          (it'.df.getD i row0).x_pixel
              = some ⌊((item_binned.df.getD i row0).x
                  - col_min (item_binned.df.map Row.x)) / (1001/200 : ℚ)⌋
            ∧ (it'.df.getD i row0).y_pixel
              = some ⌊((item_binned.df.getD i row0).y
                  - col_min (item_binned.df.map Row.y)) / (1001/200 : ℚ)⌋ :=
  pixel_unclamped_floor item_binned (1001/200) (1001/200) rfl rfl
    (by norm_num) (by norm_num)

/-- C3: after rendering a 2D cloud with positive bin counts (and spread
coordinates on both axes), each axis's edge sequence has length
`bin_count + 1`, is strictly increasing, starts at the axis minimum over the
full table and ends strictly above the axis maximum. -/
theorem rendered_edge_geometry (it : Item) (xb yb : Nat) (cs : List Int)
    (hdim : it.dim = 2) (hcs : it.channels = some cs)
    (hxb : 0 < xb) (hyb : 0 < yb)
    (hx : col_min (it.df.map Row.x) < col_max (it.df.map Row.x))
    (hy : col_min (it.df.map Row.y) < col_max (it.df.map Row.y)) :
    ∃ it' xe ye, coord_2_histo it [xb, yb] = .ok it'
      ∧ it'.histo_edges = some [xe, ye]
      ∧ xe.length = xb + 1 ∧ xe.Pairwise (fun a b => a < b)
      ∧ xe.head? = some (col_min (it.df.map Row.x))
      ∧ (∃ e, xe.getLast? = some e ∧ col_max (it.df.map Row.x) < e)
      ∧ ye.length = yb + 1 ∧ ye.Pairwise (fun a b => a < b)
      ∧ ye.head? = some (col_min (it.df.map Row.y))
      ∧ (∃ e, ye.getLast? = some e ∧ col_max (it.df.map Row.y) < e) := by
  refine ⟨_, _, _, coord_2_histo_2d_eval it xb yb cs hdim hcs, rfl,
    axis_edges_length _ _ _,
    axis_edges_sorted _ _ _ (bin_w_pos _ _ hx hxb),
    axis_edges_head _ _ _,
    ⟨_, axis_edges_getLast _ _ _, max_lt_last_edge _ _ hx hxb⟩,
    axis_edges_length _ _ _,
    axis_edges_sorted _ _ _ (bin_w_pos _ _ hy hyb),
    axis_edges_head _ _ _,
    ⟨_, axis_edges_getLast _ _ _, max_lt_last_edge _ _ hy hyb⟩⟩

/-- C3 witness: edge geometry of the concrete two-channel cloud rendered with
`histo_size = (2, 2)`. -/
theorem rendered_edge_geometry_witness :
    ∃ it' xe ye, coord_2_histo item_two_chan [2, 2] = .ok it'
      ∧ it'.histo_edges = some [xe, ye]
      ∧ xe.length = 2 + 1 ∧ xe.Pairwise (fun a b => a < b)
      ∧ xe.head? = some (col_min (item_two_chan.df.map Row.x))
      ∧ (∃ e, xe.getLast? = some e ∧ col_max (item_two_chan.df.map Row.x) < e)
      ∧ ye.length = 2 + 1 ∧ ye.Pairwise (fun a b => a < b)
      ∧ ye.head? = some (col_min (item_two_chan.df.map Row.y))
      ∧ (∃ e, ye.getLast? = some e ∧ col_max (item_two_chan.df.map Row.y) < e) :=
  rendered_edge_geometry item_two_chan 2 2 [0, 1] rfl rfl (by omega) (by omega)
    (by decide) (by decide)

/-- C5: for every row of a rendered 2D cloud, the stored pixel index equals
the 1-indexed `digitize` of its coordinate against that axis's edges, minus
one — in exact arithmetic this holds for all rows (the claim only requires it
away from the axis maxima, which it flags as a floating-point boundary
case). -/
theorem pixel_digitize_agree (it : Item) (xb yb : Nat) (cs : List Int)
    (hdim : it.dim = 2) (hcs : it.channels = some cs)
    (hxb : 0 < xb) (hyb : 0 < yb)
    (hx : col_min (it.df.map Row.x) < col_max (it.df.map Row.x))
    (hy : col_min (it.df.map Row.y) < col_max (it.df.map Row.y)) :
    ∃ it' xe ye, coord_2_histo it [xb, yb] = .ok it'
      ∧ it'.histo_edges = some [xe, ye]
      ∧ ∀ i : Nat, i < it'.df.length →
          (it'.df.getD i row0).x_pixel
              = some ((digitize (it'.df.getD i row0).x xe : Int) - 1)
            ∧ (it'.df.getD i row0).y_pixel
              = some ((digitize (it'.df.getD i row0).y ye : Int) - 1) := by
  refine ⟨_, _, _, coord_2_histo_2d_eval it xb yb cs hdim hcs, rfl, ?_⟩
  have hxw : 0 < bin_w (it.df.map Row.x) xb := bin_w_pos _ _ hx hxb
  have hyw : 0 < bin_w (it.df.map Row.y) yb := bin_w_pos _ _ hy hyb
  intro i hi
  have hi0 : i < it.df.length := by simpa using hi
  have hi' : i < (it.df.map (fun r =>
      { r with
        x_pixel := some (py_int_cast
          ((r.x - col_min (it.df.map Row.x)) / bin_w (it.df.map Row.x) xb)),
        y_pixel := some (py_int_cast
          ((r.y - col_min (it.df.map Row.y)) / bin_w (it.df.map Row.y) yb)),
        z_pixel := none })).length := by
    simpa using hi0
  rw [List.getD_eq_getElem _ _ hi', List.getElem_map]
  have hmemx : (it.df[i]).x ∈ it.df.map Row.x :=
    List.mem_map.mpr ⟨it.df[i], List.getElem_mem hi0, rfl⟩
  have hmemy : (it.df[i]).y ∈ it.df.map Row.y :=
    List.mem_map.mpr ⟨it.df[i], List.getElem_mem hi0, rfl⟩
  have hq1x : col_min (it.df.map Row.x) ≤ (it.df[i]).x := col_min_le _ _ hmemx
  have hq1y : col_min (it.df.map Row.y) ≤ (it.df[i]).y := col_min_le _ _ hmemy
  have hq2x : (it.df[i]).x
      < col_min (it.df.map Row.x) + bin_w (it.df.map Row.x) xb * (xb : ℚ) :=
    lt_of_le_of_lt (le_col_max _ _ hmemx) (max_lt_last_edge _ _ hx hxb)
  have hq2y : (it.df[i]).y
      < col_min (it.df.map Row.y) + bin_w (it.df.map Row.y) yb * (yb : ℚ) :=
    lt_of_le_of_lt (le_col_max _ _ hmemy) (max_lt_last_edge _ _ hy hyb)
  constructor
  · show some (py_int_cast
        (((it.df[i]).x - col_min (it.df.map Row.x)) / bin_w (it.df.map Row.x) xb))
      = some ((digitize (it.df[i]).x (axis_edges (col_min (it.df.map Row.x))
          (bin_w (it.df.map Row.x) xb) xb) : Int) - 1)
    rw [py_int_cast_floor _ (div_nonneg (sub_nonneg.mpr hq1x) hxw.le),
      digitize_axis _ _ _ _ hxw hq1x hq2x]
    have h0 := pixel_nonneg _ _ (it.df[i]).x hxw hq1x
    congr 1
    push_cast
    omega
  · show some (py_int_cast
        (((it.df[i]).y - col_min (it.df.map Row.y)) / bin_w (it.df.map Row.y) yb))
      = some ((digitize (it.df[i]).y (axis_edges (col_min (it.df.map Row.y))
          (bin_w (it.df.map Row.y) yb) yb) : Int) - 1)
    rw [py_int_cast_floor _ (div_nonneg (sub_nonneg.mpr hq1y) hyw.le),
      digitize_axis _ _ _ _ hyw hq1y hq2y]
    have h0 := pixel_nonneg _ _ (it.df[i]).y hyw hq1y
    congr 1
    push_cast
    omega

/-- C5 witness: pixel indices agree with `digitize - 1` on the concrete
two-channel cloud rendered with `histo_size = (2, 2)`. -/
theorem pixel_digitize_agree_witness :
    ∃ it' xe ye, coord_2_histo item_two_chan [2, 2] = .ok it'
      ∧ it'.histo_edges = some [xe, ye]
      ∧ ∀ i : Nat, i < it'.df.length →
          (it'.df.getD i row0).x_pixel
              = some ((digitize (it'.df.getD i row0).x xe : Int) - 1)
            ∧ (it'.df.getD i row0).y_pixel
              = some ((digitize (it'.df.getD i row0).y ye : Int) - 1) :=
  pixel_digitize_agree item_two_chan 2 2 [0, 1] rfl rfl (by omega) (by omega)
    (by decide) (by decide)

/-- C2: for every channel of a rendered 2D cloud (positive bin counts, spread
coordinates), the sum of all entries of that channel's histogram equals the
number of table rows with that channel value — every localisation lands in
exactly one bin. -/
theorem histo_sum_counts (it : Item) (xb yb : Nat) (cs : List Int)
    (hdim : it.dim = 2) (hcs : it.channels = some cs)
    (hxb : 0 < xb) (hyb : 0 < yb)
    (hx : col_min (it.df.map Row.x) < col_max (it.df.map Row.x))
    (hy : col_min (it.df.map Row.y) < col_max (it.df.map Row.y)) :
    ∃ it', coord_2_histo it [xb, yb] = .ok it'
      ∧ ∀ c ∈ cs, ∃ g, dict_get it'.histo c = some (.h2 g)
          ∧ hist2_sum g = (it'.df.filter (fun r => r.channel == c)).length := by
  refine ⟨_, coord_2_histo_2d_eval it xb yb cs hdim hcs, ?_⟩
  have hxw : 0 < bin_w (it.df.map Row.x) xb := bin_w_pos _ _ hx hxb
  have hyw : 0 < bin_w (it.df.map Row.y) yb := bin_w_pos _ _ hy hyb
  intro c hc
  refine ⟨_, dict_get_foldl_mem cs it.histo (fun chan => .h2 (histogramdd2
      (axis_edges (col_min (it.df.map Row.x)) (bin_w (it.df.map Row.x) xb) xb)
      (axis_edges (col_min (it.df.map Row.y)) (bin_w (it.df.map Row.y) yb) yb)
      ((it.df.filter (fun r => r.channel == chan)).map (fun r => (r.x, r.y)))))
      c hc, ?_⟩
  rw [hist2_sum_eq, axis_edges_length, axis_edges_length]
  simp only [Nat.add_sub_cancel]
  have huniq : ∀ p ∈ (it.df.filter (fun r => r.channel == c)).map
      (fun r => (r.x, r.y)), ∃ i0 j0 : Nat, i0 < xb ∧ j0 < yb ∧
      ∀ i j : Nat, i < xb → j < yb →
        ((in_bin (axis_edges (col_min (it.df.map Row.x))
            (bin_w (it.df.map Row.x) xb) xb) i p.1
          && in_bin (axis_edges (col_min (it.df.map Row.y))
            (bin_w (it.df.map Row.y) yb) yb) j p.2) = true
          ↔ (i = i0 ∧ j = j0)) := by
    intro p hp
    obtain ⟨r, hr, rfl⟩ := List.mem_map.mp hp
    have hrdf : r ∈ it.df := List.mem_of_mem_filter hr
    have hmemx : r.x ∈ it.df.map Row.x := List.mem_map.mpr ⟨r, hrdf, rfl⟩
    have hmemy : r.y ∈ it.df.map Row.y := List.mem_map.mpr ⟨r, hrdf, rfl⟩
    have hq1x : col_min (it.df.map Row.x) ≤ r.x := col_min_le _ _ hmemx
    have hq1y : col_min (it.df.map Row.y) ≤ r.y := col_min_le _ _ hmemy
    have hq2x : r.x
        < col_min (it.df.map Row.x) + bin_w (it.df.map Row.x) xb * (xb : ℚ) :=
      lt_of_le_of_lt (le_col_max _ _ hmemx) (max_lt_last_edge _ _ hx hxb)
    have hq2y : r.y
        < col_min (it.df.map Row.y) + bin_w (it.df.map Row.y) yb * (yb : ℚ) :=
      lt_of_le_of_lt (le_col_max _ _ hmemy) (max_lt_last_edge _ _ hy hyb)
    have h0x := pixel_nonneg _ _ r.x hxw hq1x
    have h0y := pixel_nonneg _ _ r.y hyw hq1y
    have hltx := pixel_lt _ _ r.x xb hxw hq2x
    have hlty := pixel_lt _ _ r.y yb hyw hq2y
    refine ⟨(⌊(r.x - col_min (it.df.map Row.x)) / bin_w (it.df.map Row.x) xb⌋).toNat,
      (⌊(r.y - col_min (it.df.map Row.y)) / bin_w (it.df.map Row.y) yb⌋).toNat,
      by omega, by omega, ?_⟩
    intro i j hi hj
    rw [Bool.and_eq_true,
      in_bin_iff_floor _ _ r.x xb i hxw hq1x hq2x hi,
      in_bin_iff_floor _ _ r.y yb j hyw hq1y hq2y hj]
    constructor
    · rintro ⟨h1, h2⟩
      exact ⟨by omega, by omega⟩
    · rintro ⟨rfl, rfl⟩
      exact ⟨by omega, by omega⟩
  rw [sum_filter_count xb yb _ _ huniq, List.length_map,
    ← List.countP_eq_length_filter, ← List.countP_eq_length_filter,
    List.countP_map]
  exact (List.countP_congr (fun r _ => Iff.rfl)).symm

/-- C2 witness: per-channel histogram totals match the per-channel row counts
on the concrete two-channel cloud rendered with `histo_size = (2, 2)`. -/
theorem histo_sum_counts_witness :
    ∃ it', coord_2_histo item_two_chan [2, 2] = .ok it'
      ∧ ∀ c ∈ [(0 : Int), 1], ∃ g, dict_get it'.histo c = some (.h2 g)
          ∧ hist2_sum g = (it'.df.filter (fun r => r.channel == c)).length :=
  histo_sum_counts item_two_chan 2 2 [0, 1] rfl rfl (by omega) (by omega)
    (by decide) (by decide)

/-- C10: saving to CSV with `save_chan_label = true` gives each written row a
`chan_label` column equal to `channel_label[channel]`, and silently omits the
rows whose channel value is not in `0 .. len(channel_label) - 1` (the join
with the enumerated label table is inner). -/
theorem csv_chan_label_join (it : Item) (ls : List String) (dz dp : Bool)
    (hls : it.channel_label = some ls) :
    save_df_to_csv it dz dp true
      = chan_label_join_spec ls (csv_base it dz dp) := by
  unfold save_df_to_csv chan_label_join_spec
  rw [if_pos rfl]
  refine List.filterMap_congr (fun r _ => ?_)
  rw [hls]
  unfold chan_label_df
  by_cases hin : 0 ≤ r.channel ∧ r.channel < (ls.length : Int)
  · have hfind : ((List.range ls.length).map
        (fun (i : Nat) => ((i : Int), some (ls.getD i "")))).find?
          (fun t => t.1 == r.channel)
        = some (r.channel, some (ls.getD r.channel.toNat "")) := by
      apply find?_of_unique
      · refine List.mem_map.mpr ⟨r.channel.toNat, List.mem_range.mpr (by omega), ?_⟩
        simp [Int.toNat_of_nonneg hin.1]
      · simp
      · intro u hu hp
        obtain ⟨i, hi, rfl⟩ := List.mem_map.mp hu
        have hieq : (i : Int) = r.channel := by simpa using hp
        have hieq' : i = r.channel.toNat := by omega
        subst hieq'
        simp [Int.toNat_of_nonneg hin.1]
    rw [hfind, if_pos hin]
    rfl
  · have hfind : ((List.range ls.length).map
        (fun (i : Nat) => ((i : Int), some (ls.getD i "")))).find?
          (fun t => t.1 == r.channel) = none := by
      rw [List.find?_eq_none]
      intro u hu
      obtain ⟨i, hi, rfl⟩ := List.mem_map.mp hu
      have hi' := List.mem_range.mp hi
      simp only [beq_iff_eq]
      intro hc
      exact hin ⟨by omega, by omega⟩
    rw [hfind, if_neg hin]
    rfl

/-- C10 witness: the CSV label join at a concrete cloud with channels
`0, 5, 1, -1` and two labels. -/
theorem csv_chan_label_join_witness :
    save_df_to_csv item_csv false true true
      = chan_label_join_spec ["egfr", "ereg"] (csv_base item_csv false true) :=
  csv_chan_label_join item_csv ["egfr", "ereg"] false true rfl

/-- C8 (counterexample): rendering a concrete cloud with `histo_size = (2, 3)`
and reconciling against the matching-shape non-square mask `[[1,2,3],[4,5,6]]`
retains a row at pixel `(1, 0)` whose `gt_label` is `3`, although the mask
value at `(1, 0)` is `4`: the flattened mask dataframe pairs a meshgrid of the
transposed shape with the row-major raveled mask, so for non-square masks the
claimed per-pixel labelling fails. -/
theorem mask_nonsquare_mislabel :
    ∃ it1 it2 : Item,
      coord_2_histo item_rect [2, 3] = .ok it1
      ∧ manual_seg_pixel_2_coord
          { it1 with histo_mask := some [[1, 2, 3], [4, 5, 6]] } = .ok it2
      ∧ (⟨0, 10, 0, none, none, some 1, some 0, none, some 3⟩ : Row) ∈ it2.df
      ∧ mask_at [[1, 2, 3], [4, 5, 6]] 1 0 = 4 ∧ (3 : Int) ≠ 4 := by
  refine ⟨_, _, rfl, rfl, by with_unfolding_all decide, by decide, by decide⟩

/-- C8 (amended): for a *square* mask (each row as long as the list of rows),
2D mask reconciliation behaves as claimed: any pre-existing `gt_label` column
is replaced, every retained row's `gt_label` equals the mask value at the
row's `(x_pixel, y_pixel)`, and rows whose pixel has no mask cell (or that
lack pixel columns) are dropped by the inner join. -/
theorem mask_reconcile_square (it : Item) (mask : List (List Int))
    (hdim : it.dim = 2) (hmask : it.histo_mask = some mask)
    (hsq : ∀ row ∈ mask, row.length = mask.length) :
    ∃ it', manual_seg_pixel_2_coord it = .ok it'
      ∧ it'.df = mask_join_spec mask it.df := by
  have heval : manual_seg_pixel_2_coord it = .ok { it with
      df := inner_join_mask (it.df.map (fun r => { r with gt_label := none }))
        (sort_le pixel_le (mask_df mask)) } := by
    unfold manual_seg_pixel_2_coord
    rw [if_pos hdim, hmask]
  refine ⟨_, heval, ?_⟩
  show inner_join_mask (it.df.map (fun r => { r with gt_label := none }))
      (sort_le pixel_le (mask_df mask)) = mask_join_spec mask it.df
  unfold inner_join_mask mask_join_spec
  rw [List.filterMap_map]
  refine List.filterMap_congr (fun r _ => ?_)
  show (match r.x_pixel, r.y_pixel with
    | some xp, some yp =>
      ((sort_le pixel_le (mask_df mask)).find?
          (fun t => t.1 == xp && t.2.1 == yp)).map
        (fun t => { r with gt_label := some t.2.2 })
    | _, _ => none)
    = (match r.x_pixel, r.y_pixel with
    | some p, some q =>
      if 0 ≤ p ∧ p < (mask.length : Int) ∧ 0 ≤ q ∧ q < (mask.length : Int) then
        some { r with gt_label := some (mask_at mask p.toNat q.toNat) }
      else none
    | _, _ => none)
  cases hx : r.x_pixel with
  | none => rfl
  | some p =>
    cases hy : r.y_pixel with
    | none => rfl
    | some q =>
      show (((sort_le pixel_le (mask_df mask)).find?
            (fun t => t.1 == p && t.2.1 == q)).map
          (fun t => (⟨r.channel, r.x, r.y, r.z, r.frame, some p, some q,
            r.z_pixel, some t.2.2⟩ : Row)))
        = (if 0 ≤ p ∧ p < (mask.length : Int) ∧ 0 ≤ q
              ∧ q < (mask.length : Int) then
            some (⟨r.channel, r.x, r.y, r.z, r.frame, some p, some q,
              r.z_pixel, some (mask_at mask p.toNat q.toNat)⟩ : Row)
          else none)
      by_cases hempty : mask = []
      · subst hempty
        have hfind : (sort_le pixel_le
            (mask_df ([] : List (List Int)))).find?
              (fun t => t.1 == p && t.2.1 == q) = none := rfl
        rw [hfind, if_neg ?hneg]
        case hneg =>
          rintro ⟨h1, h2, h3, h4⟩
          simp only [List.length_nil, Nat.cast_zero] at h2
          omega
        rfl
      · have hn0 : 0 < mask.length := List.length_pos.mpr hempty
        have hs1 : (mask.headD []).length = mask.length := by
          cases mask with
          | nil => exact absurd rfl hempty
          | cons row rest => exact hsq row (List.mem_cons_self _ _)
        have hmdf : mask_df mask
            = (List.range (mask.length * mask.length)).map
              (fun k => (((k / mask.length : Nat) : Int),
                ((k % mask.length : Nat) : Int),
                mask_at mask (k / mask.length) (k % mask.length))) := by
          unfold mask_df
          rw [hs1]
        by_cases hin : 0 ≤ p ∧ p < (mask.length : Int) ∧ 0 ≤ q
            ∧ q < (mask.length : Int)
        · obtain ⟨h1, h2, h3, h4⟩ := hin
          have hpn : p.toNat < mask.length := by omega
          have hqn : q.toNat < mask.length := by omega
          have hk0 : p.toNat * mask.length + q.toNat
              < mask.length * mask.length := by
            calc p.toNat * mask.length + q.toNat
                < p.toNat * mask.length + mask.length := by omega
              _ = (p.toNat + 1) * mask.length := by ring
              _ ≤ mask.length * mask.length :=
                  Nat.mul_le_mul_right mask.length (by omega)
          have hdiv : (p.toNat * mask.length + q.toNat) / mask.length
              = p.toNat := by
            rw [Nat.mul_comm p.toNat mask.length, Nat.mul_add_div hn0,
              Nat.div_eq_of_lt hqn]
            omega
          have hmod : (p.toNat * mask.length + q.toNat) % mask.length
              = q.toNat := by
            rw [Nat.mul_comm p.toNat mask.length, Nat.mul_add_mod,
              Nat.mod_eq_of_lt hqn]
          have hfind : (sort_le pixel_le (mask_df mask)).find?
                (fun t => t.1 == p && t.2.1 == q)
              = some (p, q, mask_at mask p.toNat q.toNat) := by
            apply find?_of_unique
            · rw [mem_sort_le, hmdf]
              refine List.mem_map.mpr
                ⟨p.toNat * mask.length + q.toNat, List.mem_range.mpr hk0, ?_⟩
              simp only [hdiv, hmod]
              simp [Int.toNat_of_nonneg h1, Int.toNat_of_nonneg h3]
            · simp
            · intro u hu hp'
              rw [mem_sort_le, hmdf] at hu
              obtain ⟨k, hk, rfl⟩ := List.mem_map.mp hu
              simp only [Bool.and_eq_true, beq_iff_eq] at hp'
              obtain ⟨he1, he2⟩ := hp'
              set a := k / mask.length with hadef
              set b := k % mask.length with hbdef
              clear_value a b
              have ha' : a = p.toNat := by omega
              have hb' : b = q.toNat := by omega
              rw [ha', hb']
              simp [Int.toNat_of_nonneg h1, Int.toNat_of_nonneg h3]
          rw [hfind, if_pos ⟨h1, h2, h3, h4⟩]
          rfl
        · have hfind : (sort_le pixel_le (mask_df mask)).find?
              (fun t => t.1 == p && t.2.1 == q) = none := by
            rw [List.find?_eq_none]
            intro u hu
            rw [mem_sort_le, hmdf] at hu
            obtain ⟨k, hk, rfl⟩ := List.mem_map.mp hu
            have hk' := List.mem_range.mp hk
            simp only [Bool.and_eq_true, beq_iff_eq, not_and]
            intro he1 he2
            have hdivlt : k / mask.length < mask.length :=
              (Nat.div_lt_iff_lt_mul hn0).mpr hk'
            have hmodlt : k % mask.length < mask.length := Nat.mod_lt k hn0
            set a := k / mask.length with hadef
            set b := k % mask.length with hbdef
            clear_value a b
            exact hin ⟨by omega, by omega, by omega, by omega⟩
          rw [hfind, if_neg hin]
          rfl

/-- C8 (amended) witness: square-mask reconciliation at a concrete indexed
cloud with a `2 × 2` mask. -/
theorem mask_reconcile_square_witness :
    ∃ it', manual_seg_pixel_2_coord item_square_mask = .ok it'
      ∧ it'.df = mask_join_spec [[7, 8], [9, 10]] item_square_mask.df :=
  mask_reconcile_square item_square_mask [[7, 8], [9, 10]] rfl rfl (by decide)

end NapariLocpix
